import Mathlib

/-!
Shallow embedding of `bandstop.py`: a pipeline that detects persistent
narrow-band interference in an audio channel and removes it with notch
filters.  Spectrum magnitudes and filtered samples are modelled over `ℚ`;
bin indices and Hz values (produced by integer floor division in the
source) over `Nat`/`Int`.  The FFT and the scipy filter application are
external library calls and enter the embedding as function parameters.
-/

namespace Bandstop

/-- Window duration in ms, constant `FFT_SAMPLE_SIZE` (bandstop.py line 20). -/
def FFT_SAMPLE_SIZE : Nat := 10000

/-- Differentiation threshold in Hz, constant
`FREQUENCY_MAXIMUM_DIFFERENTIATING_DIFFERENCE` (line 21). -/
def FREQUENCY_MAXIMUM_DIFFERENTIATING_DIFFERENCE : Nat := 50

/-- Margin in Hz added around candidates, constant
`FREQUENCY_BANDSTOP_MARGIN` (line 22). -/
def FREQUENCY_BANDSTOP_MARGIN : Int := 50

/-- Minimum cluster support, constant `FREQUENCY_MINIMUM_COUNT` (line 23). -/
def FREQUENCY_MINIMUM_COUNT : Nat := 20

/-- First discrete difference `np.diff`: entry `i` is `a[i+1] - a[i]`. -/
def np_diff (l : List ℚ) : List ℚ := List.zipWith (fun a b => b - a) l l.tail

/-- Stable insert into a list of (index, value) pairs sorted by descending
value.  On ties the incumbent stays in front. -/
def insertDesc (x : Nat × ℚ) : List (Nat × ℚ) → List (Nat × ℚ)
  | [] => [x]
  | y :: ys => if y.2 < x.2 then x :: y :: ys else y :: insertDesc x ys

/-- Insertion sort by descending value. -/
def sortDesc (l : List (Nat × ℚ)) : List (Nat × ℚ) := l.foldr insertDesc []

/-- Model of `np.argpartition(xs, -k)[-k:]` (lines 72 and 74): the indices
of the `k` largest entries of `xs`.  numpy's introselect leaves the order
and the tie-break implementation-defined; this embedding fixes one
deterministic choice, which is all the development relies on. -/
def top_indices (k : Nat) (xs : List ℚ) : List Nat :=
  ((sortDesc xs.enum).take k).map Prod.fst

/-- Rising-edge selection `low_ind` before normalization (lines 66, 72):
indices of the 3 largest positive first differences above the `low_band`
cutoff `pps/4`, shifted back to absolute bin positions. -/
def selected_rising (data : List ℚ) (pps : Nat) : List Nat :=
  (top_indices 3 ((np_diff data).drop (pps / 4))).map (· + pps / 4)

/-- Falling-edge selection `high_ind` before normalization (line 74):
indices of the 3 most negative first differences above the cutoff. -/
def selected_falling (data : List ℚ) (pps : Nat) : List Nat :=
  (top_indices 3 (((np_diff data).drop (pps / 4)).map Neg.neg)).map (· + pps / 4)

/-- Bin-index to Hz conversion `(ind * fs) // pps` (lines 77-78). -/
def toHz (fs pps : Nat) (i : Nat) : Int := ((i * fs) / pps : Nat)

/-- The Candidate Band Extractor `find_outstanding_frequencies`
(lines 63-102): pair every selected falling edge with every selected
rising edge; the pair is emitted when the normalized (Hz) values differ by
less than the threshold, ordered (min, max). -/
def find_outstanding_frequencies (data : List ℚ) (fs pps : Nat) :
    List (Int × Int) :=
  (selected_falling data pps).flatMap fun a =>
    (selected_rising data pps).filterMap fun b =>
      if |toHz fs pps a - toHz fs pps b| <
          (FREQUENCY_MAXIMUM_DIFFERENTIATING_DIFFERENCE : Int) then
        some (if toHz fs pps a < toHz fs pps b
              then (toHz fs pps a, toHz fs pps b)
              else (toHz fs pps b, toHz fs pps a))
      else none

/-- The Candidate Band Extractor as claim C1 words it: the emission test
compares the two selected indices in bin-index units, before the Hz
conversion.  Kept only to be compared with `find_outstanding_frequencies`. -/
def find_outstanding_frequencies_claimC1 (data : List ℚ) (fs pps : Nat) :
    List (Int × Int) :=
  (selected_falling data pps).flatMap fun (a : Nat) =>
    (selected_rising data pps).filterMap fun (b : Nat) =>
      if |(a : Int) - (b : Int)| <
          (FREQUENCY_MAXIMUM_DIFFERENTIATING_DIFFERENCE : Int) then
        some (if toHz fs pps a < toHz fs pps b
              then (toHz fs pps a, toHz fs pps b)
              else (toHz fs pps b, toHz fs pps a))
      else none

/-- A frequency cluster (lines 121-124): running sums of the merged
candidates' low and high bounds, plus how many were merged. -/
structure Cluster where
  dataLow : Int
  dataHigh : Int
  count : Nat
deriving DecidableEq, Repr

/-- Midpoint of one (expanded) candidate, `avg = (c[0] + c[1])/2` (line 111). -/
def candAvg (c : Int × Int) : ℚ := ((c.1 : ℚ) + (c.2 : ℚ)) / 2

/-- Running-average midpoint of a cluster,
`favg = (f.data[0] + f.data[1])/(2 * f.count)` (line 114). -/
def clusterMid (f : Cluster) : ℚ :=
  ((f.dataLow : ℚ) + (f.dataHigh : ℚ)) / (2 * (f.count : ℚ))

/-- Merging a candidate into a cluster (lines 116-117). -/
def mergeInto (c : Int × Int) (f : Cluster) : Cluster :=
  ⟨f.dataLow + c.1, f.dataHigh + c.2, f.count + 1⟩

/-- The inner scan of lines 113-119: walk the cluster list in order, merge
the candidate into the first cluster whose running midpoint is within the
differentiation threshold, and stop.  `none` when no cluster matches. -/
def placeCand (c : Int × Int) : List Cluster → Option (List Cluster)
  | [] => none
  | f :: rest =>
    if |candAvg c - clusterMid f| <
        (FREQUENCY_MAXIMUM_DIFFERENTIATING_DIFFERENCE : ℚ) then
      some (mergeInto c f :: rest)
    else Option.map (fun l => f :: l) (placeCand c rest)

/-- One iteration of the outer loop (lines 110-124): place the candidate
into the first matching cluster, else append a fresh singleton cluster. -/
def insertCand (acc : List Cluster) (c : Int × Int) : List Cluster :=
  match placeCand c acc with
  | some l => l
  | none => acc ++ [⟨c.1, c.2, 1⟩]

/-- The whole clustering loop over the (already expanded) candidates. -/
def clusterCands (cs : List (Int × Int)) : List Cluster :=
  cs.foldl insertCand []

/-- A cluster's reported band `f.data / f.count` (line 131). -/
def clusterAvg (f : Cluster) : ℚ × ℚ :=
  ((f.dataLow : ℚ) / (f.count : ℚ), (f.dataHigh : ℚ) / (f.count : ℚ))

/-- The two column-wise margin passes of lines 106-107: first
`candidates[:,1] += MARGIN`, then `candidates[:,0] -= MARGIN`. -/
def expand_candidates (cand : List (Int × Int)) : List (Int × Int) :=
  (cand.map (fun c => (c.1, c.2 + FREQUENCY_BANDSTOP_MARGIN))).map
    (fun c => (c.1 - FREQUENCY_BANDSTOP_MARGIN, c.2))

/-- The symmetric expansion of a single candidate. -/
def expandCand (c : Int × Int) : Int × Int :=
  (c.1 - FREQUENCY_BANDSTOP_MARGIN, c.2 + FREQUENCY_BANDSTOP_MARGIN)

/-- The Band Cluster Aggregator `extract_bandstop_frequencies`
(lines 104-133): expand the candidates, cluster them, and report the
running average of every cluster whose count strictly exceeds the minimum
support. -/
def extract_bandstop_frequencies (cand : List (Int × Int)) : List (ℚ × ℚ) :=
  (clusterCands (expand_candidates cand)).filterMap fun f =>
    if FREQUENCY_MINIMUM_COUNT < f.count then some (clusterAvg f) else none

/-- The (w0, Q) pair handed to `signal.iirnotch` (lines 143-151):
`w0 = center/(fs/2)` and `Q = 2*center/dist` with `dist` clamped to a
minimum of 10 before the Q that is actually used is computed. -/
def notch_params (fs : Nat) (ft : ℚ × ℚ) : ℚ × ℚ :=
  ((ft.1 + ft.2) / 2 / ((fs : ℚ) / 2),
    2 * ((ft.1 + ft.2) / 2) /
      (if |ft.1 - ft.2| < 10 then 10 else |ft.1 - ft.2|))

/-- The Notch Filter Pipeline `bandstop` (lines 139-155): apply one
synthesized notch per confirmed band, sequentially, each pass consuming
the previous output.  `filt` abstracts the external `iirnotch`/`filtfilt`
pair as a function from the (w0, Q) parameters to a signal transformer. -/
def bandstop (filt : ℚ × ℚ → List ℚ → List ℚ) (frequencies : List (ℚ × ℚ))
    (sound_data : List ℚ) (fs : Nat) : List ℚ :=
  frequencies.foldl (fun sd ft => filt (notch_params fs ft) sd) sound_data

/-- The candidate-collection loop of `parse` (lines 161-181): slice the
channel into `pps`-sample windows, take the magnitude spectrum (`fftabs`
abstracts `abs ∘ fft`), keep the first `len/2 - 1` bins, and concatenate
each window's outstanding frequencies. -/
def parse_candidates (fftabs : List ℚ → List ℚ) (sound_data : List ℚ)
    (fs : Nat) : List (Int × Int) :=
  (List.range ((sound_data.length + FFT_SAMPLE_SIZE * fs / 1000 - 1) /
      (FFT_SAMPLE_SIZE * fs / 1000))).flatMap fun k =>
    find_outstanding_frequencies
      ((fftabs ((sound_data.drop (k * (FFT_SAMPLE_SIZE * fs / 1000))).take
          (FFT_SAMPLE_SIZE * fs / 1000))).take
        ((fftabs ((sound_data.drop (k * (FFT_SAMPLE_SIZE * fs / 1000))).take
          (FFT_SAMPLE_SIZE * fs / 1000))).length / 2 - 1))
      fs (FFT_SAMPLE_SIZE * fs / 1000)

/-- The per-channel driver `parse` (lines 159-193): collect candidates,
aggregate them, and either return the channel unchanged (no confirmed
bands) or the filtered signal. -/
def parse (fftabs : List ℚ → List ℚ) (filt : ℚ × ℚ → List ℚ → List ℚ)
    (sound_data : List ℚ) (fs : Nat) : List ℚ :=
  if extract_bandstop_frequencies (parse_candidates fftabs sound_data fs) = []
  then sound_data
  else bandstop filt
    (extract_bandstop_frequencies (parse_candidates fftabs sound_data fs))
    sound_data fs

/-- An input file as the orchestrator sees it: a bit depth, a sample rate
and per-channel sample data. -/
structure WavFile where
  depth : Nat
  fs : Nat
  dataCh : List (List ℚ)

/-- The per-file driver `process` (lines 32-60).  Modelled from the spec:
the `Sound` constructor (module `sound`, not under src/) raises
`DepthException` exactly when the bit depth is outside the supported set;
`process` catches it, logs and returns without writing an output (`none`).
Otherwise every channel is parsed and the cleaned channels are returned
for writing. -/
def process (fftabs : List ℚ → List ℚ) (filt : ℚ × ℚ → List ℚ → List ℚ)
    (supported : List Nat) (f : WavFile) : Option (List (List ℚ)) :=
  if f.depth ∈ supported then
    some (f.dataCh.map fun ch => parse fftabs filt ch f.fs)
  else none

/-- The top-level loop (lines 195-196): process each file in order; a file
that produced no output is simply skipped. -/
def mainLoop (fftabs : List ℚ → List ℚ) (filt : ℚ × ℚ → List ℚ → List ℚ)
    (supported : List Nat) (files : List WavFile) : List (List (List ℚ)) :=
  files.filterMap (process fftabs filt supported)

/-- Concrete spectrum separating the code's emission test from claim C1's
wording: with `pps = 4` and `fs = 1` the rising edges sit at bins 2, 4, 6
and the falling edges at bins 56, 58, 60, so every selected pair is at
least 50 bins apart while all Hz values lie within 15 of each other. -/
def c1data : List ℚ :=
  (List.range 62).map fun i =>
    if i ≤ 2 then 0
    else if i ≤ 4 then 30
    else if i ≤ 6 then 50
    else if i ≤ 56 then 60
    else if i ≤ 58 then 30
    else if i ≤ 60 then 10
    else 0

/-- The membership invariant maintained by the clustering loop: a cluster's
sums and count are exactly those of some non-empty list of input
candidates. -/
def clusterInv (S : List (Int × Int)) (f : Cluster) : Prop :=
  ∃ ms : List (Int × Int), ms ≠ [] ∧ (∀ m ∈ ms, m ∈ S) ∧
    f.count = ms.length ∧
    f.dataLow = (ms.map Prod.fst).sum ∧
    f.dataHigh = (ms.map Prod.snd).sum

attribute [local semireducible] Rat.add Rat.sub Rat.mul Rat.inv

set_option maxRecDepth 10000

/-! Helper lemmas shared by the claim theorems. -/

theorem ordered_pair_eq (i1 i2 : Int) :
    (if i1 < i2 then (i1, i2) else (i2, i1)) = (min i1 i2, max i1 i2) := by
  rcases lt_or_le i1 i2 with h | h
  · rw [if_pos h, min_eq_left h.le, max_eq_right h.le]
  · rw [if_neg (not_lt.2 h), min_eq_right h, max_eq_left h]

theorem find_outstanding_mem (data : List ℚ) (fs pps : Nat) (p : Int × Int) :
    p ∈ find_outstanding_frequencies data fs pps ↔
      ∃ a ∈ selected_falling data pps, ∃ b ∈ selected_rising data pps,
        |toHz fs pps a - toHz fs pps b| <
          (FREQUENCY_MAXIMUM_DIFFERENTIATING_DIFFERENCE : Int) ∧
        p = (min (toHz fs pps a) (toHz fs pps b),
             max (toHz fs pps a) (toHz fs pps b)) := by
  simp only [find_outstanding_frequencies, List.mem_flatMap, List.mem_filterMap]
  constructor
  · rintro ⟨a, ha, b, hb, hsome⟩
    rw [ordered_pair_eq] at hsome
    by_cases hlt : |toHz fs pps a - toHz fs pps b| <
        (FREQUENCY_MAXIMUM_DIFFERENTIATING_DIFFERENCE : Int)
    · rw [if_pos hlt] at hsome
      exact ⟨a, ha, b, hb, hlt, (Option.some.inj hsome).symm⟩
    · rw [if_neg hlt] at hsome
      cases hsome
  · rintro ⟨a, ha, b, hb, hlt, rfl⟩
    exact ⟨a, ha, b, hb, by rw [if_pos hlt, ordered_pair_eq]⟩

theorem expand_candidates_eq (cand : List (Int × Int)) :
    expand_candidates cand = cand.map expandCand := by
  simp only [expand_candidates, List.map_map]
  rfl

theorem extract_mem (cand : List (Int × Int)) (s : ℚ × ℚ) :
    s ∈ extract_bandstop_frequencies cand ↔
      ∃ f ∈ clusterCands (expand_candidates cand),
        FREQUENCY_MINIMUM_COUNT < f.count ∧ s = clusterAvg f := by
  simp only [extract_bandstop_frequencies, List.mem_filterMap]
  constructor
  · rintro ⟨f, hf, hsome⟩
    by_cases hc : FREQUENCY_MINIMUM_COUNT < f.count
    · rw [if_pos hc] at hsome
      exact ⟨f, hf, hc, (Option.some.inj hsome).symm⟩
    · rw [if_neg hc] at hsome
      cases hsome
  · rintro ⟨f, hf, hc, rfl⟩
    exact ⟨f, hf, by rw [if_pos hc]⟩

theorem placeCand_inv (S : List (Int × Int)) (c : Int × Int) (hc : c ∈ S) :
    ∀ (acc acc' : List Cluster), (∀ f ∈ acc, clusterInv S f) →
      placeCand c acc = some acc' → ∀ f ∈ acc', clusterInv S f := by
  intro acc
  induction acc with
  | nil => intro acc' _ h; cases h
  | cons g rest ih =>
    intro acc' hacc hplace f hf
    rw [placeCand] at hplace
    split at hplace
    · cases Option.some.inj hplace
      rcases List.mem_cons.1 hf with rfl | hf2
      · obtain ⟨ms, hne, hmem, hcnt, hlo, hhi⟩ := hacc g (List.mem_cons_self g rest)
        refine ⟨c :: ms, by simp, ?_, ?_, ?_, ?_⟩
        · intro m hm
          rcases List.mem_cons.1 hm with rfl | hm2
          · exact hc
          · exact hmem m hm2
        · simp [mergeInto, hcnt]
        · simp only [mergeInto, List.map_cons, List.sum_cons, hlo]
          ring
        · simp only [mergeInto, List.map_cons, List.sum_cons, hhi]
          ring
      · exact hacc f (List.mem_cons_of_mem g hf2)
    · rcases Option.map_eq_some'.1 hplace with ⟨l, hl, rfl⟩
      rcases List.mem_cons.1 hf with rfl | hf2
      · exact hacc f (List.mem_cons_self f rest)
      · exact ih l (fun f2 hf3 => hacc f2 (List.mem_cons_of_mem g hf3)) hl f hf2

theorem insertCand_inv (S : List (Int × Int)) (c : Int × Int)
    (acc : List Cluster) (hc : c ∈ S) (hacc : ∀ f ∈ acc, clusterInv S f) :
    ∀ f ∈ insertCand acc c, clusterInv S f := by
  intro f hf
  unfold insertCand at hf
  cases hp : placeCand c acc with
  | some l =>
    rw [hp] at hf
    exact placeCand_inv S c hc acc l hacc hp f hf
  | none =>
    rw [hp] at hf
    rcases List.mem_append.1 hf with h | h
    · exact hacc f h
    · rcases List.mem_singleton.1 h with rfl
      exact ⟨[c], by simp, by simpa using hc, by simp, by simp, by simp⟩

theorem foldl_insertCand_inv (S : List (Int × Int)) :
    ∀ (cs : List (Int × Int)) (acc : List Cluster),
      (∀ x ∈ cs, x ∈ S) → (∀ f ∈ acc, clusterInv S f) →
      ∀ f ∈ cs.foldl insertCand acc, clusterInv S f := by
  intro cs
  induction cs with
  | nil => intro acc _ hacc; simpa using hacc
  | cons c rest ih =>
    intro acc hcs hacc
    exact ih (insertCand acc c)
      (fun x hx => hcs x (List.mem_cons_of_mem c hx))
      (insertCand_inv S c acc (hcs c (List.mem_cons_self c rest)) hacc)

theorem clusterCands_inv (cs : List (Int × Int)) :
    ∀ f ∈ clusterCands cs, clusterInv cs f :=
  foldl_insertCand_inv cs cs [] (fun _ hx => hx) (by simp)

theorem sum_gap_lower (ms : List (Int × Int))
    (h : ∀ m ∈ ms, 100 ≤ m.2 - m.1) :
    100 * (ms.length : Int) ≤ (ms.map Prod.snd).sum - (ms.map Prod.fst).sum := by
  induction ms with
  | nil => simp
  | cons m rest ih =>
    simp only [List.map_cons, List.sum_cons, List.length_cons]
    have h1 := h m (List.mem_cons_self m rest)
    have h2 := ih fun x hx => h x (List.mem_cons_of_mem m hx)
    push_cast
    linarith

/-! Claim theorems. -/

/-- C1 (counterexample): the claim says a (falling, rising) pair is emitted
exactly when the two selected indices differ by less than 50 in bin-index
units before the Hz conversion.  On the concrete spectrum `c1data` (with
`fs = 1`, `pps = 4`) every selected pair is at least 50 bins apart, yet
`find_outstanding_frequencies` emits all nine pairs, because the source
normalizes the indices to Hz first (lines 76-78) and only then compares
them (line 99).  The claim-worded extractor and the code disagree. -/
theorem C1_counterexample :
    find_outstanding_frequencies c1data 1 4 ≠
      find_outstanding_frequencies_claimC1 c1data 1 4 := by
  decide

/-- C1 (amended): for every selected (falling, rising) index pair, a
FrequencyCandidate ordered (min, max) is emitted exactly when the absolute
difference of the two indices measured after the conversion to Hz is
strictly less than 50: membership in the output of
`find_outstanding_frequencies` is equivalent to coming from a selected
pair whose converted Hz values differ by less than the threshold. -/
theorem C1_amended (data : List ℚ) (fs pps : Nat) (p : Int × Int) :
    p ∈ find_outstanding_frequencies data fs pps ↔
      ∃ a ∈ selected_falling data pps, ∃ b ∈ selected_rising data pps,
        |toHz fs pps a - toHz fs pps b| <
          (FREQUENCY_MAXIMUM_DIFFERENTIATING_DIFFERENCE : Int) ∧
        p = (min (toHz fs pps a) (toHz fs pps b),
             max (toHz fs pps a) (toHz fs pps b)) :=
  find_outstanding_mem data fs pps p

/-- C2: the spec's silence invariance fails on the code.  For the all-zero
channel of 120 samples at sample rate 4 (three 40-sample windows, all-zero
magnitude spectra), every window emits nine candidates — the rising and
falling selections coincide because the all-zero difference spectrum
equals its own negation — and after three windows one cluster reaches
count 27 > 20, so the confirmed cluster set is non-empty. -/
theorem C2_silence_violation :
    extract_bandstop_frequencies
      (parse_candidates (fun w => w.map fun _ => 0)
        (List.replicate 120 0) 4) ≠ [] := by
  decide

/-- C3: if the Band Cluster Aggregator yields zero confirmed BandstopSpecs
for a channel, `parse` returns the input channel itself (lines 183-186). -/
theorem C3_noop_passthrough (fftabs : List ℚ → List ℚ)
    (filt : ℚ × ℚ → List ℚ → List ℚ) (sound_data : List ℚ) (fs : Nat)
    (h : extract_bandstop_frequencies
      (parse_candidates fftabs sound_data fs) = []) :
    parse fftabs filt sound_data fs = sound_data := by
  simp [parse, h]

/-- Witness for C3: one all-zero 40-sample window yields only nine
candidates, the single cluster stays at count 9 ≤ 20, no band is
confirmed, and the channel passes through unchanged. -/
theorem C3_witness :
    extract_bandstop_frequencies
        (parse_candidates (fun w => w.map fun _ => 0)
          (List.replicate 40 0) 4) = []
    ∧ parse (fun w => w.map fun _ => 0) (fun _ sd => sd)
        (List.replicate 40 0) 4 = List.replicate 40 0 :=
  ⟨by decide, C3_noop_passthrough _ _ _ _ (by decide)⟩

/-- C4: a cluster yields a BandstopSpec if and only if its count strictly
exceeds the minimum support threshold of 20: the emitted list is exactly
the running averages of the clusters with count > 20, every such cluster's
average is emitted, and everything emitted is the average of such a
cluster. -/
theorem C4_minimum_support (cand : List (Int × Int)) :
    extract_bandstop_frequencies cand
        = ((clusterCands (expand_candidates cand)).filter
            (fun f => decide (FREQUENCY_MINIMUM_COUNT < f.count))).map clusterAvg
    ∧ (∀ f ∈ clusterCands (expand_candidates cand),
        FREQUENCY_MINIMUM_COUNT < f.count →
          clusterAvg f ∈ extract_bandstop_frequencies cand)
    ∧ (∀ s ∈ extract_bandstop_frequencies cand,
        ∃ f ∈ clusterCands (expand_candidates cand),
          FREQUENCY_MINIMUM_COUNT < f.count ∧ s = clusterAvg f) := by
  refine ⟨?_, ?_, ?_⟩
  · unfold extract_bandstop_frequencies
    induction clusterCands (expand_candidates cand) with
    | nil => rfl
    | cons f l ih =>
      by_cases h : FREQUENCY_MINIMUM_COUNT < f.count <;>
        simp [List.filterMap_cons, List.filter_cons, h, ih]
  · intro f hf hc
    exact (extract_mem cand (clusterAvg f)).2 ⟨f, hf, hc, rfl⟩
  · intro s hs
    exact (extract_mem cand s).1 hs

/-- Witness for C4: twenty-one identical candidates (0, 0) merge into the
single cluster with sums (-1050, 1050) and count 21 > 20, whose average
(-50, 50) is emitted. -/
theorem C4_witness :
    clusterAvg ⟨-1050, 1050, 21⟩ ∈
      extract_bandstop_frequencies (List.replicate 21 ((0 : Int), (0 : Int))) :=
  (C4_minimum_support (List.replicate 21 ((0 : Int), (0 : Int)))).2.1
    ⟨-1050, 1050, 21⟩ (by decide) (by decide)

/-- C5: for exactly two candidates, the aggregator forms one cluster when
the expanded midpoints differ by strictly less than the 50 Hz threshold
and two clusters otherwise; with only two candidates neither cluster can
pass the minimum-support filter, so no band is confirmed in either case. -/
theorem C5_two_candidate_clustering (c1 c2 : Int × Int) :
    (clusterCands (expand_candidates [c1, c2])).length
        = (if |candAvg (expandCand c2) - candAvg (expandCand c1)| <
              (FREQUENCY_MAXIMUM_DIFFERENTIATING_DIFFERENCE : ℚ)
           then 1 else 2)
    ∧ extract_bandstop_frequencies [c1, c2] = [] := by
  rw [expand_candidates_eq]
  have hmid : clusterMid ⟨(expandCand c1).1, (expandCand c1).2, 1⟩
      = candAvg (expandCand c1) := by
    simp [clusterMid, candAvg]
  constructor
  · by_cases h : |candAvg (expandCand c2) - candAvg (expandCand c1)| <
        (FREQUENCY_MAXIMUM_DIFFERENTIATING_DIFFERENCE : ℚ)
    · simp [clusterCands, insertCand, placeCand, hmid, h]
    · simp [clusterCands, insertCand, placeCand, hmid, h]
  · unfold extract_bandstop_frequencies
    rw [expand_candidates_eq]
    by_cases h : |candAvg (expandCand c2) - candAvg (expandCand c1)| <
        (FREQUENCY_MAXIMUM_DIFFERENTIATING_DIFFERENCE : ℚ)
    · simp [clusterCands, insertCand, placeCand, hmid, h, mergeInto,
        FREQUENCY_MINIMUM_COUNT]
    · simp [clusterCands, insertCand, placeCand, hmid, h,
        FREQUENCY_MINIMUM_COUNT]

/-- C6: every cluster produced by the aggregation fold — and therefore the
band it reports — is the unweighted arithmetic mean of the bounds of the
candidates merged into it: its sums and count are exactly those of a
non-empty sublist of the input, and its reported band is
(sumLow/count, sumHigh/count). -/
theorem C6_cluster_mean (cs : List (Int × Int)) (f : Cluster)
    (h : f ∈ clusterCands cs) :
    ∃ ms : List (Int × Int), ms ≠ [] ∧ (∀ m ∈ ms, m ∈ cs) ∧
      f.count = ms.length ∧
      f.dataLow = (ms.map Prod.fst).sum ∧
      f.dataHigh = (ms.map Prod.snd).sum ∧
      clusterAvg f = ((((ms.map Prod.fst).sum : Int) : ℚ) / (ms.length : ℚ),
                      (((ms.map Prod.snd).sum : Int) : ℚ) / (ms.length : ℚ)) := by
  obtain ⟨ms, hne, hmem, hlen, hlo, hhi⟩ := clusterCands_inv cs f h
  exact ⟨ms, hne, hmem, hlen, hlo, hhi, by simp only [clusterAvg, hlo, hhi, hlen]⟩

/-- Witness for C6: the single candidate (1, 3) yields the cluster with
sums (1, 3) and count 1, whose reported band is the mean of that one
candidate. -/
theorem C6_witness :
    ∃ ms : List (Int × Int), ms ≠ [] ∧ (∀ m ∈ ms, m ∈ [((1 : Int), (3 : Int))]) ∧
      (Cluster.mk 1 3 1).count = ms.length ∧
      (Cluster.mk 1 3 1).dataLow = (ms.map Prod.fst).sum ∧
      (Cluster.mk 1 3 1).dataHigh = (ms.map Prod.snd).sum ∧
      clusterAvg (Cluster.mk 1 3 1)
        = ((((ms.map Prod.fst).sum : Int) : ℚ) / (ms.length : ℚ),
           (((ms.map Prod.snd).sum : Int) : ℚ) / (ms.length : ℚ)) :=
  C6_cluster_mean [((1 : Int), (3 : Int))] ⟨1, 3, 1⟩ (by decide)

/-- C7: for every BandstopSpec (low, high), the notch is synthesized with
normalized center w0 = ((low + high)/2) / (fs/2) and quality factor
Q = 2 * center / dist where dist = the absolute width clamped below at
10 Hz, and the pipeline feeds exactly these parameters to the filter. -/
theorem C7_notch_synthesis (fs : Nat) (ft : ℚ × ℚ)
    (filt : ℚ × ℚ → List ℚ → List ℚ) (specs : List (ℚ × ℚ)) (sd : List ℚ) :
    notch_params fs ft
        = ((ft.1 + ft.2) / 2 / ((fs : ℚ) / 2),
           2 * ((ft.1 + ft.2) / 2) / max |ft.2 - ft.1| 10)
    ∧ bandstop filt (ft :: specs) sd fs
        = bandstop filt specs (filt (notch_params fs ft) sd) fs := by
  constructor
  · unfold notch_params
    simp only [Prod.mk.injEq, true_and]
    rw [abs_sub_comm ft.2 ft.1]
    rcases lt_or_le |ft.1 - ft.2| 10 with h | h
    · rw [if_pos h, max_eq_right h.le]
    · rw [if_neg (not_lt.2 h), max_eq_left h]
  · rfl

/-- C8: a file whose Sound construction fails with DepthException produces
no output, and the outputs of the surrounding files are exactly what they
would be with the failing file absent — processing continues unaffected. -/
theorem C8_depth_exception_isolation (fftabs : List ℚ → List ℚ)
    (filt : ℚ × ℚ → List ℚ → List ℚ) (supported : List Nat)
    (l1 l2 : List WavFile) (f : WavFile) (h : f.depth ∉ supported) :
    process fftabs filt supported f = none
    ∧ mainLoop fftabs filt supported (l1 ++ f :: l2)
        = mainLoop fftabs filt supported l1
          ++ mainLoop fftabs filt supported l2 := by
  have hp : process fftabs filt supported f = none := by
    simp [process, h]
  exact ⟨hp, by simp [mainLoop, List.filterMap_append, List.filterMap_cons, hp]⟩

/-- Witness for C8: with only 16-bit depth supported, a 24-bit file between
two 16-bit files is skipped and the remaining outputs are unaffected. -/
theorem C8_witness :
    process (fun w => w) (fun _ sd => sd) [16] ⟨24, 8, []⟩ = none
    ∧ mainLoop (fun w => w) (fun _ sd => sd) [16]
        ([⟨16, 8, []⟩] ++ (⟨24, 8, []⟩ : WavFile) :: [⟨16, 8, []⟩])
      = mainLoop (fun w => w) (fun _ sd => sd) [16] [⟨16, 8, []⟩]
        ++ mainLoop (fun w => w) (fun _ sd => sd) [16] [⟨16, 8, []⟩] :=
  C8_depth_exception_isolation _ _ _ _ _ _ (by decide)

/-- C9: expanding a candidate (low, high) by the 50 Hz margin yields
exactly (low − 50, high + 50) — the two sequential column passes of the
source compose to the symmetric expansion — and all subsequent clustering
and filtering operates only on the expanded candidates. -/
theorem C9_margin_expansion (cand : List (Int × Int)) (l h : Int) :
    expandCand (l, h) = (l - 50, h + 50)
    ∧ expand_candidates cand = cand.map expandCand
    ∧ extract_bandstop_frequencies cand
        = (clusterCands (cand.map expandCand)).filterMap
            (fun f => if FREQUENCY_MINIMUM_COUNT < f.count
                      then some (clusterAvg f) else none) := by
  refine ⟨rfl, expand_candidates_eq cand, ?_⟩
  unfold extract_bandstop_frequencies
  rw [expand_candidates_eq]

/-- C10: every candidate emitted by the extractor is ordered (low ≤ high),
and for ordered candidates every confirmed BandstopSpec has width at least
100 Hz (each bound gains the 50 Hz margin before averaging), so in the
notch pipeline the dist < 10 clamp is never taken and the quality-factor
division never divides by zero. -/
theorem C10_band_width_safety :
    (∀ (data : List ℚ) (fs pps : Nat),
        ∀ p ∈ find_outstanding_frequencies data fs pps, p.1 ≤ p.2)
    ∧ (∀ cand : List (Int × Int), (∀ c ∈ cand, c.1 ≤ c.2) →
        ∀ s ∈ extract_bandstop_frequencies cand,
          100 ≤ s.2 - s.1 ∧ |s.1 - s.2| ≠ 0 ∧
          ∀ fs : Nat, notch_params fs s
            = ((s.1 + s.2) / 2 / ((fs : ℚ) / 2),
               2 * ((s.1 + s.2) / 2) / |s.1 - s.2|)) := by
  constructor
  · intro data fs pps p hp
    rcases (find_outstanding_mem data fs pps p).1 hp with ⟨a, _, b, _, _, rfl⟩
    exact min_le_max
  · intro cand hord s hs
    rcases (extract_mem cand s).1 hs with ⟨f, hf, hcnt, rfl⟩
    obtain ⟨ms, hne, hmem, hlen, hlo, hhi⟩ := clusterCands_inv _ f hf
    have hgap : ∀ m ∈ ms, 100 ≤ m.2 - m.1 := by
      intro m hm
      have hm2 := hmem m hm
      rw [expand_candidates_eq] at hm2
      rcases List.mem_map.1 hm2 with ⟨c, hc, rfl⟩
      have := hord c hc
      simp only [expandCand, FREQUENCY_BANDSTOP_MARGIN]
      omega
    have hsum := sum_gap_lower ms hgap
    have hn : (0 : ℚ) < (f.count : ℚ) := by
      have h0 : 0 < f.count := lt_of_le_of_lt (Nat.zero_le _) hcnt
      exact_mod_cast h0
    have key : 100 ≤ (clusterAvg f).2 - (clusterAvg f).1 := by
      have hdiff : (clusterAvg f).2 - (clusterAvg f).1
          = ((f.dataHigh : ℚ) - (f.dataLow : ℚ)) / (f.count : ℚ) := by
        simp only [clusterAvg]
        ring
      rw [hdiff, le_div_iff₀ hn]
      have hcast : (100 : ℚ) * (f.count : ℚ) ≤ (f.dataHigh : ℚ) - (f.dataLow : ℚ) := by
        rw [hlo, hhi, hlen]
        exact_mod_cast hsum
      linarith
    have habs : |(clusterAvg f).1 - (clusterAvg f).2|
        = (clusterAvg f).2 - (clusterAvg f).1 := by
      rw [abs_sub_comm]
      exact abs_of_nonneg (by linarith)
    refine ⟨key, ?_, ?_⟩
    · rw [habs]
      exact ne_of_gt (by linarith)
    · intro fs
      unfold notch_params
      rw [if_neg (not_lt.2 (by rw [habs]; linarith))]

/-- Witness for C10: the confirmed band (-50, 50) produced from 21 ordered
candidates (0, 0) has width 100, a nonzero dist, and unclamped notch
parameters. -/
theorem C10_witness :
    100 ≤ ((50 : ℚ) - (-50 : ℚ)) ∧ |(-50 : ℚ) - (50 : ℚ)| ≠ 0 ∧
      ∀ fs : Nat, notch_params fs ((-50 : ℚ), (50 : ℚ))
        = (((-50 : ℚ) + (50 : ℚ)) / 2 / ((fs : ℚ) / 2),
           2 * (((-50 : ℚ) + (50 : ℚ)) / 2) / |(-50 : ℚ) - (50 : ℚ)|) :=
  C10_band_width_safety.2 (List.replicate 21 ((0 : Int), (0 : Int)))
    (by decide) ((-50 : ℚ), (50 : ℚ)) (by decide)

end Bandstop
